import Mathlib

/-!
Shallow embedding of the client-side terminal logic of `static/script.js`
(class `Terminal`).  Strings are modelled as `String` / `List Char`;
JavaScript regex `replace`/`test`/`match` calls are modelled by explicit
recursive scanners with the same leftmost-match semantics as the
corresponding regex; DOM side effects are modelled as fields of an explicit
client-state record (appended output lines, the prompt text, the input
field's value); a thrown JavaScript exception is modelled by a Boolean
"threw" flag, with all mutations performed before the throw kept.
-/

/-- Character class `[0-9;]` of the CSI regex `\x1b\[[0-9;]*[a-zA-Z]` in
`stripAnsiCodes`. -/
def isCSIParamChar (c : Char) : Bool :=
  decide ((48 ≤ c.toNat ∧ c.toNat ≤ 57) ∨ c = ';')

/-- Character class `[a-zA-Z]` of the CSI regex. -/
def isAsciiLetter (c : Char) : Bool :=
  decide ((97 ≤ c.toNat ∧ c.toNat ≤ 122) ∨ (65 ≤ c.toNat ∧ c.toNat ≤ 90))

/-- Character class `[0-9]`. -/
def isDigitC (c : Char) : Bool :=
  decide (48 ≤ c.toNat ∧ c.toNat ≤ 57)

/-- After `ESC [`, try to match `[0-9;]*[a-zA-Z]` (greedy, which is
deterministic here because no letter is a parameter character); return the
remainder of the input after the match, or `none` when the regex
`\x1b\[[0-9;]*[a-zA-Z]` fails at this position. -/
def csiTail : List Char → Option (List Char)
  | [] => none
  | c :: rest =>
    if isCSIParamChar c then csiTail rest
    else if isAsciiLetter c then some rest
    else none

/-- Fuelled scanner for `.replace(/\x1b\[[0-9;]*[a-zA-Z]/g, '')`: at each
`ESC` try the sequence match and drop it; otherwise keep the character and
continue with the next position, exactly like a global regex replace.  The
fuel only serves to make the recursion structural; `fuel = length` always
suffices because every step consumes at least one character. -/
def stripCSIGo : Nat → List Char → List Char
  | 0, l => l
  | _ + 1, [] => []
  | fuel + 1, c :: rest =>
    if c = '\x1b' then
      match rest with
      | '[' :: rest2 =>
        match csiTail rest2 with
        | some r => stripCSIGo fuel r
        | none => c :: stripCSIGo fuel rest
      | _ => c :: stripCSIGo fuel rest
    else c :: stripCSIGo fuel rest

/-- Step (1) of `Terminal.stripAnsiCodes`: remove ANSI color codes and
cursor movement, `.replace(/\x1b\[[0-9;]*[a-zA-Z]/g, '')`. -/
def stripCSI (l : List Char) : List Char := stripCSIGo l.length l

/-- Inside an OSC sequence, match `[^\x07]*\x07` (greedy; deterministic
because `BEL` is excluded from the repeated class). -/
def oscBody : List Char → Option (List Char)
  | [] => none
  | c :: rest => if c = '\x07' then some rest else oscBody rest

/-- After `ESC ]`, match `[0-9]*;` then the body up to `BEL`. -/
def oscTail : List Char → Option (List Char)
  | [] => none
  | c :: rest =>
    if isDigitC c then oscTail rest
    else if c = ';' then oscBody rest
    else none

/-- Fuelled scanner for `.replace(/\x1b\][0-9]*;[^\x07]*\x07/g, '')`. -/
def stripOSCGo : Nat → List Char → List Char
  | 0, l => l
  | _ + 1, [] => []
  | fuel + 1, c :: rest =>
    if c = '\x1b' then
      match rest with
      | ']' :: rest2 =>
        match oscTail rest2 with
        | some r => stripOSCGo fuel r
        | none => c :: stripOSCGo fuel rest
      | _ => c :: stripOSCGo fuel rest
    else c :: stripOSCGo fuel rest

/-- Step (2) of `Terminal.stripAnsiCodes`: remove ANSI operating system
commands, `.replace(/\x1b\][0-9]*;[^\x07]*\x07/g, '')`. -/
def stripOSC (l : List Char) : List Char := stripOSCGo l.length l

/-- Step (3) of `Terminal.stripAnsiCodes`: `.replace(/\x1b[=>]/g, '')`. -/
def stripEscMode : List Char → List Char
  | [] => []
  | [c] => [c]
  | c :: d :: rest2 =>
    if c = '\x1b' ∧ (d = '=' ∨ d = '>') then stripEscMode rest2
    else c :: stripEscMode (d :: rest2)

/-- Step (4) of `Terminal.stripAnsiCodes`: remove backspace sequences,
`.replace(/[\x08\x7f]/g, '')`. -/
def stripBsDel (l : List Char) : List Char :=
  l.filter fun c => !(c = '\x08' || c = '\x7f')

/-- Step (5) of `Terminal.stripAnsiCodes`: `.replace(/\r\n/g, '\n')`. -/
def normCRLF : List Char → List Char
  | [] => []
  | [c] => [c]
  | c :: d :: rest2 =>
    if c = '\r' ∧ d = '\n' then '\n' :: normCRLF rest2
    else c :: normCRLF (d :: rest2)

/-- Step (6) of `Terminal.stripAnsiCodes`: `.replace(/\r/g, '')`. -/
def stripCR (l : List Char) : List Char := l.filter fun c => !(c = '\r')

/-- Step (7) of `Terminal.stripAnsiCodes`: remove bell characters,
`.replace(/\x07/g, '')`. -/
def stripBell (l : List Char) : List Char := l.filter fun c => !(c = '\x07')

/-- Character class `[\x00-\x08\x0B-\x0C\x0E-\x1F\x7F]` of step (8). -/
def isStrippedCtrl (c : Char) : Bool :=
  decide (c.toNat ≤ 8 ∨ (11 ≤ c.toNat ∧ c.toNat ≤ 12) ∨
    (14 ≤ c.toNat ∧ c.toNat ≤ 31) ∨ c.toNat = 127)

/-- Step (8) of `Terminal.stripAnsiCodes`: remove other control characters
except newline and tab, `.replace(/[\x00-\x08\x0B-\x0C\x0E-\x1F\x7F]/g, '')`. -/
def stripCtrl (l : List Char) : List Char := l.filter fun c => !(isStrippedCtrl c)

/-- Character class `[ \t]` of step (9). -/
def isSpTab (c : Char) : Bool := c = ' ' || c = '\t'

/-- Scanner for `.replace(/[ \t]+/g, ' ')`: the flag records whether we are
inside a run of spaces/tabs whose single replacement `' '` has already been
emitted (a global replace rewrites each maximal run to one space). -/
def collapseAux : Bool → List Char → List Char
  | _, [] => []
  | inRun, c :: rest =>
    if isSpTab c then
      if inRun then collapseAux true rest
      else ' ' :: collapseAux true rest
    else c :: collapseAux false rest

/-- Step (9) of `Terminal.stripAnsiCodes`: clean up multiple spaces. -/
def collapseWS (l : List Char) : List Char := collapseAux false l

/-- Scanner for `.replace(/ +$/gm, '')` (step (10)): `n` counts a pending
run of spaces, which is dropped when the line ends (`'\n'` or end of input,
the positions matched by `$` with the `m` flag) and flushed otherwise. -/
def trimTrailAux : Nat → List Char → List Char
  | _, [] => []
  | n, c :: rest =>
    if c = ' ' then trimTrailAux (n + 1) rest
    else if c = '\n' then '\n' :: trimTrailAux 0 rest
    else List.replicate n ' ' ++ c :: trimTrailAux 0 rest

/-- Step (10) of `Terminal.stripAnsiCodes`: remove trailing whitespace from
lines. -/
def trimTrail (l : List Char) : List Char := trimTrailAux 0 l

/-- `Terminal.stripAnsiCodes` on character lists: the ten `replace` steps
applied in the source's order. -/
def sanitizeL (l : List Char) : List Char :=
  trimTrail (collapseWS (stripCtrl (stripBell (stripCR (normCRLF
    (stripBsDel (stripEscMode (stripOSC (stripCSI l)))))))))

/-- `Terminal.stripAnsiCodes` on strings. -/
def stripAnsiCodes (s : String) : String := String.mk (sanitizeL s.data)

/-- JavaScript whitespace (`\s`, and the set trimmed by `String.trim`):
space, tab, line feed, carriage return, vertical tab, form feed, NBSP and
the BOM.  (Other Unicode `Zs` characters also belong to the class; they do
not occur in any input considered here.) -/
def isJsWs (c : Char) : Bool :=
  decide (c = ' ' ∨ c = '\t' ∨ c = '\n' ∨ c = '\r' ∨ c.toNat = 11 ∨
    c.toNat = 12 ∨ c.toNat = 160 ∨ c.toNat = 65279)

/-- JavaScript `String.prototype.trim` on character lists. -/
def jsTrimL (l : List Char) : List Char :=
  (((l.dropWhile isJsWs).reverse).dropWhile isJsWs).reverse

/-- JavaScript `String.prototype.trim`. -/
def jsTrim (s : String) : String := String.mk (jsTrimL s.data)

/-- JavaScript `String.prototype.split(sep)` for a one-character
separator. -/
def splitOnChar (sep : Char) : List Char → List (List Char)
  | [] => [[]]
  | c :: rest =>
    if c = sep then [] :: splitOnChar sep rest
    else
      match splitOnChar sep rest with
      | [] => [[c]]
      | h :: t => (c :: h) :: t

/-- `text.split('\n')` as used by `Terminal.addRawOutput`. -/
def splitNl (l : List Char) : List (List Char) := splitOnChar '\n' l

/-- `text.endsWith('\n')`. -/
def endsWithNl (l : List Char) : Bool := decide (l.getLast? = some '\n')

/-- JavaScript `String.prototype.includes`: `hasSubstr hay pat` is true when
`pat` occurs contiguously in `hay`. -/
def hasSubstr : List Char → List Char → Bool
  | [], pat => pat.isEmpty
  | c :: rest, pat => pat.isPrefixOf (c :: rest) || hasSubstr rest pat

/-- Word characters `\w` = `[A-Za-z0-9_]`. -/
def isWordChar (c : Char) : Bool :=
  decide ((48 ≤ c.toNat ∧ c.toNat ≤ 57) ∨ (65 ≤ c.toNat ∧ c.toNat ≤ 90) ∨
    (97 ≤ c.toNat ∧ c.toNat ≤ 122) ∨ c = '_')

/-- Characters matched by `.` in a JavaScript regex without the `s` flag:
anything but a line terminator. -/
def isDotChar (c : Char) : Bool :=
  decide (¬(c = '\n' ∨ c = '\r' ∨ c.toNat = 8232 ∨ c.toNat = 8233))

/-- First disjunct of `Terminal.isPromptLine`: `/[@$#]\s*$/.test(line)` —
the last character before the (whitespace-only) end is `@`, `$` or `#`. -/
def endsWithPromptSym (l : List Char) : Bool :=
  match l.reverse.dropWhile isJsWs with
  | [] => false
  | c :: _ => decide (c = '@' ∨ c = '$' ∨ c = '#')

/-- Second disjunct of `Terminal.isPromptLine`:
`/^\w+@\w+.*[$#]\s*$/.test(line)`.  `\w+` before `@` is a maximal nonempty
word run (deterministic because `@` is not a word character); after `@` one
word character is required (any further ones are absorbed by `.*`), and the
string must end with a `$`/`#` followed only by whitespace, everything in
between being `.`-matchable. -/
def matchesUserHost (l : List Char) : Bool :=
  match l.dropWhile isWordChar with
  | '@' :: rest =>
    if (l.takeWhile isWordChar).isEmpty then false
    else
      match rest with
      | [] => false
      | c :: rest2 =>
        if isWordChar c then
          match rest2.reverse.dropWhile isJsWs with
          | [] => false
          | s :: mid => decide (s = '$' ∨ s = '#') && mid.all isDotChar
        else false
  | _ => false

/-- `Terminal.isPromptLine`: detect shell prompts. -/
def isPromptLine (l : List Char) : Bool :=
  endsWithPromptSym l || matchesUserHost l ||
    hasSubstr l ("web-h-063@web-h-063".data)

/-- `Terminal.isPasswordPrompt`: detect password prompts.
(`toLowerCase` is modelled by `Char.toLower`, which agrees with it on
ASCII.) -/
def isPasswordPrompt (l : List Char) : Bool :=
  hasSubstr (l.map Char.toLower) ("password".data) ||
    hasSubstr l ("[sudo]".data) || hasSubstr l ("Password:".data)

/-- `line.match(/:([^$#]+)[$#]/)` in `Terminal.formatPrompt`: at each `:`
(scanning left to right like a regex search) try to capture a nonempty run
of non-`$#` characters followed by `$` or `#`; return the first capture. -/
def colonDirMatch : List Char → Option (List Char)
  | [] => none
  | c :: rest =>
    if c = ':' then
      let run := rest.takeWhile fun d => !(d = '$' || d = '#')
      let after := rest.dropWhile fun d => !(d = '$' || d = '#')
      if run.isEmpty || after.isEmpty then colonDirMatch rest else some run
    else colonDirMatch rest

/-- `Terminal.formatPrompt`: the directory extraction only runs for lines
containing the hard-coded substring `web-h-063@web-h-063`; otherwise the
line is returned unchanged.  (`match[1].replace(/~/g, '~')` in the source
replaces `~` by itself and is the identity.) -/
def formatPrompt (l : List Char) : List Char :=
  if hasSubstr l ("web-h-063@web-h-063".data) then
    match colonDirMatch l with
    | some dir => dir ++ (if l.contains '#' then ['#'] else ['$'])
    | none => l
  else l

/-- `Terminal.processTerminalLine`, returning the list of
(text, className) output lines it appends (via `addFormattedOutput`, whose
`raw-output` branch re-trims the text; `jsTrimL` is idempotent so the
re-trim is written as `cleanLine` itself). -/
def processTerminalLineOut (line : List Char) (isLastLine : Bool) :
    List (String × String) :=
  let cleanLine := jsTrimL line
  if cleanLine.isEmpty && !isLastLine then []
  else if isPromptLine cleanLine then
    [(String.mk (formatPrompt cleanLine), "shell-prompt")]
  else if isPasswordPrompt cleanLine then
    [(String.mk cleanLine, "password-prompt")]
  else if !cleanLine.isEmpty then
    [(String.mk cleanLine, "raw-output")]
  else []

/-- One iteration of the loop in `Terminal.addRawOutput` for line index `i`
of `n` lines: a blank non-final line is forwarded as an empty `raw-output`
spacer; otherwise the line goes through `processTerminalLine`, with
`isLastLine = (i === lines.length - 1 && !text.endsWith('\n'))` computed
from the raw (unsanitized) chunk `text`. -/
def lineContrib (textEndsNl : Bool) (n i : Nat) (line : List Char) :
    List (String × String) :=
  if (jsTrimL line).isEmpty && !(i == n - 1) then [("", "raw-output")]
  else processTerminalLineOut line ((i == n - 1) && !textEndsNl)

/-- `Terminal.addRawOutput`: sanitize the chunk, split into lines, and
collect every appended output line. -/
def addRawOutputLines (text : String) : List (String × String) :=
  let lines := splitNl (sanitizeL text.data)
  ((lines.enum).map fun p =>
    lineContrib (endsWithNl text.data) lines.length p.1 p.2).flatten

/-- `Terminal.getShortPath`.  The first argument models the global
`process` binding: `none` means the global is undefined (the browser
environment in which `script.js` runs), `some envUser` means it is defined
and `process.env.USER` is `envUser`.  Evaluating `process.env.USER` with no
such global throws a `ReferenceError`, modelled as `Except.error`; the
empty-path guard `if (!path) return '~'` fires before that evaluation. -/
def getShortPath (procEnvUser : Option (Option String)) (path : String) :
    Except String String :=
  if path = "" then .ok "~"
  else
    match procEnvUser with
    | none => .error "ReferenceError: process is not defined"
    | some envUser =>
      let home := "/home/" ++ envUser.getD "user"
      if home.data.isPrefixOf path.data then
        .ok ("~" ++ String.mk (path.data.drop home.data.length))
      else
        let parts := splitOnChar '/' path.data
        if parts.length > 3 then
          .ok (".../" ++ String.intercalate "/"
            ((parts.drop (parts.length - 2)).map String.mk))
        else .ok path

/-- Key events distinguished by the `keydown` listener of
`Terminal.initializeEventListeners`. -/
inductive KeyEvent
  | enter
  | arrowUp
  | arrowDown
  | tab
  | other
deriving DecidableEq

/-- Server-to-client messages (`Terminal.handleMessage`).  For the `output`
shape, `interactive` is `none` when the message does not carry the property
(`hasOwnProperty('interactive')` is false); `clearScreen`, `outputText`,
`suggestInteractive` and `cwd` model the truthiness tests on the
corresponding optional fields (`""`/`false` for an absent field). -/
inductive ServerMsg
  | promptMsg (cwd message : String)
  | outputMsg (interactive : Option Bool) (clearScreen : Bool)
      (command : String) (outputText : String) (success : Bool)
      (suggestInteractive : Bool) (cwd : String)
  | shellOutputMsg (outputText : String)
  | unknownMsg
deriving DecidableEq

/-- Client-to-server messages sent by the modelled handlers. -/
inductive ClientMsg
  | commandMsg (command : String)
  | inputMsg (data : String)
  | resizeMsg (cols rows : Int)
deriving DecidableEq

/-- The mutable state of the `Terminal` class, including the DOM pieces the
code reads back: the appended output lines (text, className), the prompt
element's text and the input element's value. -/
structure ClientState where
  commandHistory : List String
  historyIndex : Int
  currentDirectory : String
  interactiveMode : Bool
  inputValue : String
  outputLines : List (String × String)
  promptText : String
  socketOpen : Bool
deriving DecidableEq

/-- State after the constructor runs: empty history, `historyIndex = -1`,
empty cwd, Normal mode.  The initial prompt text comes from the static
HTML and is irrelevant to every claim; it is taken to be empty. -/
def initialState : ClientState :=
  { commandHistory := []
    historyIndex := -1
    currentDirectory := ""
    interactiveMode := false
    inputValue := ""
    outputLines := []
    promptText := ""
    socketOpen := false }

/-- `Terminal.updatePrompt`.  In Normal mode it evaluates
`getShortPath(currentDirectory)`, which throws (second component `true`)
whenever the directory is non-empty, because the browser has no `process`
global; the prompt text is only assigned when no throw happens. -/
def updatePrompt (s : ClientState) : ClientState × Bool :=
  if s.interactiveMode then (s, false)
  else
    match getShortPath none s.currentDirectory with
    | .ok sp => ({ s with promptText := sp ++ "$" }, false)
    | .error _ => (s, true)

/-- `Terminal.updatePromptForMode` (placeholder/mode-indicator text is
cosmetic and not modelled; the prompt glyph is). -/
def updatePromptForMode (s : ClientState) : ClientState × Bool :=
  if s.interactiveMode then ({ s with promptText := ">" }, false)
  else updatePrompt s

/-- `Terminal.getPromptText`. -/
def getPromptText (s : ClientState) : String := s.promptText ++ " "

/-- `Terminal.handleMessage`.  The Boolean result records whether the
handler threw (a `ReferenceError` escaping from `getShortPath`); all
mutations made before the throw are kept in the returned state. -/
def handleMessage (s : ClientState) (m : ServerMsg) : ClientState × Bool :=
  match m with
  | .promptMsg cwd msg =>
    let p := updatePrompt { s with currentDirectory := cwd }
    if p.2 then (p.1, true)
    else ({ p.1 with outputLines := p.1.outputLines ++ [(msg, "success-text")] },
      false)
  | .outputMsg inter clearScreen command outputText success suggest cwd =>
    let p1 :=
      match inter with
      | none => (s, false)
      | some b => updatePromptForMode { s with interactiveMode := b }
    if p1.2 then (p1.1, true)
    else
      let s1 := p1.1
      let s2 :=
        if clearScreen then
          let sc := { s1 with outputLines := ([] : List (String × String)) }
          if command ≠ "clear" then
            { sc with outputLines :=
                sc.outputLines ++ [(getPromptText sc ++ command, "command-line")] }
          else sc
        else
          if outputText ≠ "" then
            let className :=
              if suggest then "warning-text"
              else if success then "output-text" else "error-text"
            { s1 with outputLines := s1.outputLines ++ [(outputText, className)] }
          else s1
      if cwd ≠ "" then
        let p2 := updatePrompt { s2 with currentDirectory := cwd }
        (p2.1, p2.2)
      else (s2, false)
  | .shellOutputMsg outputText =>
    if outputText ≠ "" then
      ({ s with outputLines := s.outputLines ++ addRawOutputLines outputText },
        false)
    else (s, false)
  | .unknownMsg => (s, false)

/-- `Terminal.executeCommand`, returning the new state and the messages
sent over the socket. -/
def executeCommand (s : ClientState) : ClientState × List ClientMsg :=
  let command := jsTrim s.inputValue
  if command = "" then (s, [])
  else
    let s1 :=
      if s.interactiveMode = false then
        let sh := { s with
          commandHistory := s.commandHistory ++ [command] }
        let sh2 := { sh with historyIndex := (sh.commandHistory.length : Int) }
        { sh2 with outputLines :=
            sh2.outputLines ++ [(getPromptText sh2 ++ command, "command-line")] }
      else s
    if s1.socketOpen then
      ({ s1 with inputValue := "" }, [ClientMsg.commandMsg command])
    else
      ({ s1 with
          outputLines := s1.outputLines ++ [("Not connected to server", "error-text")]
          inputValue := "" }, [])

/-- `Terminal.sendInputToShell`. -/
def sendInputToShell (s : ClientState) : ClientState × List ClientMsg :=
  let inp := s.inputValue
  let s1 :=
    if jsTrim inp ≠ "" then
      { s with outputLines := s.outputLines ++ [(inp, "user-input")] }
    else s
  let msgs :=
    if s.socketOpen then [ClientMsg.inputMsg (inp ++ "\n")] else []
  ({ s1 with inputValue := "" }, msgs)

/-- `Terminal.navigateHistory`.  Note that after clamping a negative index
to `0` the code falls through to the assignment
`input.value = commandHistory[historyIndex] || ''`. -/
def navigateHistory (s : ClientState) (direction : Int) : ClientState :=
  if s.commandHistory.length = 0 then s
  else
    let i := s.historyIndex + direction
    if i < 0 then
      { s with historyIndex := 0
               inputValue := (s.commandHistory.get? 0).getD "" }
    else if (s.commandHistory.length : Int) ≤ i then
      { s with historyIndex := (s.commandHistory.length : Int)
               inputValue := "" }
    else
      { s with historyIndex := i
               inputValue := (s.commandHistory.get? i.toNat).getD "" }

/-- The `keydown` listener: Enter routes per mode; arrow keys navigate the
history only in Normal mode; Tab and everything else mutate nothing. -/
def handleKeydown (s : ClientState) (k : KeyEvent) :
    ClientState × List ClientMsg :=
  match k with
  | .enter => if s.interactiveMode then sendInputToShell s else executeCommand s
  | .arrowUp =>
    if s.interactiveMode = false then (navigateHistory s (-1), []) else (s, [])
  | .arrowDown =>
    if s.interactiveMode = false then (navigateHistory s 1, []) else (s, [])
  | .tab => (s, [])
  | .other => (s, [])

/-- Every event that can mutate the client state: key presses, inbound
messages, the user editing the input field, window resizes and the socket
lifecycle callbacks. -/
inductive ClientEvent
  | key (k : KeyEvent)
  | recv (m : ServerMsg)
  | setInput (v : String)
  | winResize (cols rows : Int)
  | sockOpened
  | sockClosed
  | sockError
deriving DecidableEq

/-- One event step of the client (the state component of each handler). -/
def clientStep (s : ClientState) (e : ClientEvent) : ClientState :=
  match e with
  | .key k => (handleKeydown s k).1
  | .recv m => (handleMessage s m).1
  | .setInput v => { s with inputValue := v }
  | .winResize _ _ => s
  | .sockOpened =>
    { s with socketOpen := true
             outputLines := s.outputLines ++
               [("Connected to FastAPI Terminal", "success-text")] }
  | .sockClosed =>
    { s with socketOpen := false
             outputLines := s.outputLines ++ [("Connection closed", "error-text")] }
  | .sockError =>
    { s with outputLines := s.outputLines ++
        [("Connection error occurred", "error-text")] }

/-- The client state reached after a sequence of events from the freshly
constructed terminal. -/
def runClient (es : List ClientEvent) : ClientState :=
  es.foldl clientStep initialState

/-- Reachable client states. -/
def ReachableClient (s : ClientState) : Prop := ∃ es, runClient es = s

/-- The event sequence of the history-navigation test scenario: execute
`ls`, `pwd`, `cd /tmp`, then press Up three times and Down once. -/
def historyScenario : List ClientEvent :=
  [.setInput "ls", .key .enter, .setInput "pwd", .key .enter,
   .setInput "cd /tmp", .key .enter,
   .key .arrowUp, .key .arrowUp, .key .arrowUp, .key .arrowDown]

/-- Whether a list starts with a space or tab (used to state that the
output of the space-collapsing pass has no adjacent space/tab pair). -/
def headIsSpTab : List Char → Bool
  | [] => false
  | c :: _ => isSpTab c

/-- A list is collapsed when it contains no tab and no space directly
followed by another space or tab: exactly the strings on which
`.replace(/[ \t]+/g, ' ')` is the identity. -/
def collapsedB : List Char → Bool
  | [] => true
  | c :: rest =>
    decide (c ≠ '\t' ∧ (c = ' ' → headIsSpTab rest = false)) && collapsedB rest

/-- Whether a list is empty or starts with a newline (the positions matched
by `$` under the `m` flag, seen from the previous character). -/
def headIsNlOrNil : List Char → Bool
  | [] => true
  | c :: _ => decide (c = '\n')

/-- A list is trimmed when no space stands directly before a newline or
before the end: exactly the strings on which `.replace(/ +$/gm, '')` is
the identity. -/
def trimmedB : List Char → Bool
  | [] => true
  | c :: rest => decide (c = ' ' → headIsNlOrNil rest = false) && trimmedB rest

/-- Characters that survive the whole sanitizing pipeline: not in the
stripped control class and not a carriage return. -/
def goodChar (c : Char) : Bool := !isStrippedCtrl c && decide (c ≠ '\r')

/-- The invariant of claim C4 as amended: the history cursor stays in
`[-1, history.length]` and is nonnegative as soon as the history is
nonempty. -/
def invariantOK (s : ClientState) : Prop :=
  -1 ≤ s.historyIndex ∧ s.historyIndex ≤ s.commandHistory.length ∧
    (s.commandHistory ≠ [] → 0 ≤ s.historyIndex)

theorem char_eq_of_toNat_eq {a b : Char} (h : a.toNat = b.toNat) : a = b :=
  Char.ext (UInt32.ext h)

theorem stripCSIGo_no_esc :
    ∀ (fuel : Nat) (l : List Char), l.length ≤ fuel →
      (∀ c ∈ l, c ≠ '\x1b') → stripCSIGo fuel l = l := by
  intro fuel
  induction fuel with
  | zero =>
    intro l hl _
    cases l with
    | nil => rfl
    | cons c rest => simp at hl
  | succ n ih =>
    intro l hl hesc
    cases l with
    | nil => rfl
    | cons c rest =>
      have hc : c ≠ '\x1b' := hesc c (List.mem_cons_self _ _)
      simp only [stripCSIGo, if_neg hc]
      exact congrArg _ (ih rest (Nat.le_of_succ_le_succ (by simpa using hl))
        fun d hd => hesc d (List.mem_cons_of_mem _ hd))

theorem stripCSI_no_esc {l : List Char} (h : ∀ c ∈ l, c ≠ '\x1b') :
    stripCSI l = l :=
  stripCSIGo_no_esc l.length l (Nat.le_refl _) h

theorem stripOSCGo_no_esc :
    ∀ (fuel : Nat) (l : List Char), l.length ≤ fuel →
      (∀ c ∈ l, c ≠ '\x1b') → stripOSCGo fuel l = l := by
  intro fuel
  induction fuel with
  | zero =>
    intro l hl _
    cases l with
    | nil => rfl
    | cons c rest => simp at hl
  | succ n ih =>
    intro l hl hesc
    cases l with
    | nil => rfl
    | cons c rest =>
      have hc : c ≠ '\x1b' := hesc c (List.mem_cons_self _ _)
      simp only [stripOSCGo, if_neg hc]
      exact congrArg _ (ih rest (Nat.le_of_succ_le_succ (by simpa using hl))
        fun d hd => hesc d (List.mem_cons_of_mem _ hd))

theorem stripOSC_no_esc {l : List Char} (h : ∀ c ∈ l, c ≠ '\x1b') :
    stripOSC l = l :=
  stripOSCGo_no_esc l.length l (Nat.le_refl _) h

theorem stripEscMode_no_esc {l : List Char} (h : ∀ c ∈ l, c ≠ '\x1b') :
    stripEscMode l = l := by
  induction l using stripEscMode.induct with
  | case1 => rfl
  | case2 c => rfl
  | case3 c d rest2 h1 ih =>
    exact absurd h1.1 (h c (List.mem_cons_self _ _))
  | case4 c d rest2 h1 ih =>
    simp only [stripEscMode, if_neg h1]
    exact congrArg _ (ih fun x hx => h x (List.mem_cons_of_mem _ hx))

theorem normCRLF_no_cr {l : List Char} (h : ∀ c ∈ l, c ≠ '\r') :
    normCRLF l = l := by
  induction l using normCRLF.induct with
  | case1 => rfl
  | case2 c => rfl
  | case3 c d rest2 h1 ih =>
    exact absurd h1.1 (h c (List.mem_cons_self _ _))
  | case4 c d rest2 h1 ih =>
    simp only [normCRLF, if_neg h1]
    exact congrArg _ (ih fun x hx => h x (List.mem_cons_of_mem _ hx))

theorem mem_collapseAux {c : Char} :
    ∀ (l : List Char) (b : Bool), c ∈ collapseAux b l → c ∈ l ∨ c = ' ' := by
  intro l
  induction l with
  | nil => intro b hb; simp [collapseAux] at hb
  | cons d rest ih =>
    intro b hb
    simp only [collapseAux] at hb
    by_cases hd : isSpTab d = true
    · rw [if_pos hd] at hb
      cases b with
      | true =>
        rcases ih true hb with h | h
        · exact Or.inl (List.mem_cons_of_mem _ h)
        · exact Or.inr h
      | false =>
        simp only [if_neg (Bool.false_ne_true), List.mem_cons] at hb
        rcases hb with h | h
        · exact Or.inr h
        · rcases ih true h with h2 | h2
          · exact Or.inl (List.mem_cons_of_mem _ h2)
          · exact Or.inr h2
    · rw [if_neg hd] at hb
      rcases List.mem_cons.mp hb with h | h
      · exact Or.inl (h ▸ List.mem_cons_self _ _)
      · rcases ih false h with h2 | h2
        · exact Or.inl (List.mem_cons_of_mem _ h2)
        · exact Or.inr h2

theorem mem_trimTrailAux {c : Char} :
    ∀ (l : List Char) (n : Nat), c ∈ trimTrailAux n l →
      c ∈ l ∨ c = ' ' ∨ c = '\n' := by
  intro l
  induction l with
  | nil => intro n hn; simp [trimTrailAux] at hn
  | cons d rest ih =>
    intro n hn
    simp only [trimTrailAux] at hn
    by_cases hsp : d = ' '
    · rw [if_pos hsp] at hn
      rcases ih (n + 1) hn with h | h
      · exact Or.inl (List.mem_cons_of_mem _ h)
      · exact Or.inr h
    · rw [if_neg hsp] at hn
      by_cases hnl : d = '\n'
      · rw [if_pos hnl] at hn
        rcases List.mem_cons.mp hn with h | h
        · exact Or.inr (Or.inr (h.trans hnl.symm ▸ h))
        · rcases ih 0 h with h2 | h2
          · exact Or.inl (List.mem_cons_of_mem _ h2)
          · exact Or.inr h2
      · rw [if_neg hnl] at hn
        rcases List.mem_append.mp hn with h | h
        · exact Or.inr (Or.inl (List.eq_of_mem_replicate h))
        · rcases List.mem_cons.mp h with h2 | h2
          · exact Or.inl (h2 ▸ List.mem_cons_self _ _)
          · rcases ih 0 h2 with h3 | h3
            · exact Or.inl (List.mem_cons_of_mem _ h3)
            · exact Or.inr h3

theorem collapseAux_id :
    ∀ l : List Char, collapsedB l = true →
      collapseAux false l = l ∧
        (headIsSpTab l = false → collapseAux true l = l) := by
  intro l
  induction l with
  | nil => intro _; exact ⟨rfl, fun _ => rfl⟩
  | cons c rest ih =>
    intro hcol
    simp only [collapsedB, Bool.and_eq_true, decide_eq_true_eq] at hcol
    obtain ⟨⟨htab, hsp⟩, hrest⟩ := hcol
    have ihrest := ih hrest
    constructor
    · by_cases hc : isSpTab c = true
      · have hc' : c = ' ' := by
          rcases (by simpa [isSpTab, decide_eq_true_eq] using hc :
            c = ' ' ∨ c = '\t') with h | h
          · exact h
          · exact absurd h htab
        simp only [collapseAux, if_pos hc, if_neg (Bool.false_ne_true)]
        rw [hc']
        have hhead := hsp hc'
        have : collapseAux true rest = rest := by
          cases rest with
          | nil => rfl
          | cons d rest2 =>
            have hd : isSpTab d = false := by simpa [headIsSpTab] using hhead
            have heq : collapseAux true (d :: rest2) =
                collapseAux false (d :: rest2) := by
              simp only [collapseAux, hd, Bool.false_eq_true, if_false]
            rw [heq]
            exact (ih hrest).1
        rw [this]
      · simp only [collapseAux, if_neg hc]
        exact congrArg _ ihrest.1
    · intro hhead
      have hc : isSpTab c = false := by simpa [headIsSpTab] using hhead
      simp only [collapseAux, hc, Bool.false_eq_true, if_false]
      exact congrArg _ ihrest.1

theorem collapsedB_collapseAux :
    ∀ l : List Char,
      collapsedB (collapseAux false l) = true ∧
        headIsSpTab (collapseAux true l) = false ∧
        collapsedB (collapseAux true l) = true := by
  intro l
  induction l with
  | nil => exact ⟨rfl, rfl, rfl⟩
  | cons c rest ih =>
    by_cases hc : isSpTab c = true
    · refine ⟨?_, ?_, ?_⟩
      · simp only [collapseAux, if_pos hc, if_neg (Bool.false_ne_true)]
        simp only [collapsedB, Bool.and_eq_true, decide_eq_true_eq]
        exact ⟨⟨by decide, fun _ => ih.2.1⟩, ih.2.2⟩
      · simp only [collapseAux, if_pos hc, if_pos rfl]
        exact ih.2.1
      · simp only [collapseAux, if_pos hc, if_pos rfl]
        exact ih.2.2
    · have htab : c ≠ '\t' := fun h => hc (by simp [isSpTab, h])
      have hsp : c ≠ ' ' := fun h => hc (by simp [isSpTab, h])
      refine ⟨?_, ?_, ?_⟩
      · simp only [collapseAux, if_neg hc]
        simp only [collapsedB, Bool.and_eq_true, decide_eq_true_eq]
        exact ⟨⟨htab, fun h => absurd h hsp⟩, ih.1⟩
      · simp only [collapseAux, if_neg hc, headIsSpTab]
        simpa using hc
      · simp only [collapseAux, if_neg hc]
        simp only [collapsedB, Bool.and_eq_true, decide_eq_true_eq]
        exact ⟨⟨htab, fun h => absurd h hsp⟩, ih.1⟩

theorem collapsedB_no_tab :
    ∀ l : List Char, collapsedB l = true → '\t' ∉ l := by
  intro l
  induction l with
  | nil => intro _ h; simp at h
  | cons c rest ih =>
    intro hcol hmem
    simp only [collapsedB, Bool.and_eq_true, decide_eq_true_eq] at hcol
    rcases List.mem_cons.mp hmem with h | h
    · exact hcol.1.1 h.symm
    · exact ih hcol.2 h

theorem headIsNlOrNil_replicate (n : Nat) (c : Char) (X : List Char)
    (hc : c ≠ '\n') :
    headIsNlOrNil (List.replicate n ' ' ++ c :: X) = false := by
  cases n with
  | zero => simp [headIsNlOrNil, hc]
  | succ m => simp [List.replicate_succ, headIsNlOrNil]

theorem trimmedB_replicate_append (n : Nat) (c : Char) (X : List Char)
    (hc : c ≠ '\n') (hX : trimmedB (c :: X) = true) :
    trimmedB (List.replicate n ' ' ++ c :: X) = true := by
  induction n with
  | zero => simpa using hX
  | succ m ih =>
    simp only [List.replicate_succ, List.cons_append, trimmedB,
      Bool.and_eq_true, decide_eq_true_eq]
    exact ⟨fun _ => headIsNlOrNil_replicate m c X hc, ih⟩

theorem trimmedB_trimTrailAux :
    ∀ (l : List Char) (n : Nat), trimmedB (trimTrailAux n l) = true := by
  intro l
  induction l with
  | nil => intro n; rfl
  | cons c rest ih =>
    intro n
    simp only [trimTrailAux]
    by_cases hsp : c = ' '
    · rw [if_pos hsp]; exact ih (n + 1)
    · rw [if_neg hsp]
      by_cases hnl : c = '\n'
      · rw [if_pos hnl]
        simp only [trimmedB, Bool.and_eq_true, decide_eq_true_eq]
        exact ⟨fun h => absurd h (by decide), ih 0⟩
      · rw [if_neg hnl]
        refine trimmedB_replicate_append n c _ hnl ?_
        simp only [trimmedB, Bool.and_eq_true, decide_eq_true_eq]
        exact ⟨fun h => absurd h hsp, ih 0⟩

theorem trimTrailAux_id :
    ∀ l : List Char, trimmedB l = true →
      trimTrailAux 0 l = l ∧
        (headIsNlOrNil l = false →
          ∀ n, trimTrailAux n l = List.replicate n ' ' ++ l) := by
  intro l
  induction l with
  | nil =>
    intro _
    exact ⟨rfl, fun h => absurd h (by simp [headIsNlOrNil])⟩
  | cons c rest ih =>
    intro htr
    simp only [trimmedB, Bool.and_eq_true, decide_eq_true_eq] at htr
    obtain ⟨himp, hrest⟩ := htr
    have ihrest := ih hrest
    by_cases hsp : c = ' '
    · have hhead : headIsNlOrNil rest = false := himp hsp
      constructor
      · simp only [trimTrailAux, if_pos hsp]
        rw [ihrest.2 hhead 1, hsp]
        rfl
      · intro _ n
        simp only [trimTrailAux, if_pos hsp]
        rw [ihrest.2 hhead (n + 1), hsp, List.replicate_succ']
        simp [List.append_assoc]
    · by_cases hnl : c = '\n'
      · constructor
        · simp only [trimTrailAux, if_neg hsp, if_pos hnl]
          rw [ihrest.1, hnl]
        · intro hhead
          exact absurd hhead (by simp [headIsNlOrNil, hnl])
      · constructor
        · simp only [trimTrailAux, if_neg hsp, if_neg hnl]
          rw [ihrest.1]
          rfl
        · intro _ n
          simp only [trimTrailAux, if_neg hsp, if_neg hnl]
          rw [ihrest.1]

theorem collapsedB_flush (n : Nat) (c : Char) (X : List Char)
    (hc : isSpTab c = false) (hX : collapsedB (c :: X) = true) (hn : n ≤ 1) :
    collapsedB (List.replicate n ' ' ++ c :: X) = true := by
  cases n with
  | zero => simpa using hX
  | succ m =>
    cases m with
    | zero =>
      simp only [List.replicate_succ, List.replicate_zero, List.cons_append,
        List.nil_append, collapsedB, Bool.and_eq_true, decide_eq_true_eq]
      refine ⟨⟨by decide, fun _ => by simpa [headIsSpTab] using hc⟩, ?_⟩
      simp only [collapsedB, Bool.and_eq_true, decide_eq_true_eq] at hX
      exact hX
    | succ k => omega

theorem collapsedB_trimTrailAux :
    ∀ (l : List Char) (n : Nat), collapsedB l = true → n ≤ 1 →
      (n = 1 → headIsSpTab l = false) →
      collapsedB (trimTrailAux n l) = true := by
  intro l
  induction l with
  | nil => intro n _ _ _; rfl
  | cons c rest ih =>
    intro n hcol hn h1
    simp only [collapsedB, Bool.and_eq_true, decide_eq_true_eq] at hcol
    obtain ⟨⟨htab, hsphead⟩, hrest⟩ := hcol
    simp only [trimTrailAux]
    by_cases hsp : c = ' '
    · rw [if_pos hsp]
      have hn0 : n = 0 := by
        cases n with
        | zero => rfl
        | succ m =>
          cases m with
          | zero => exact absurd (h1 rfl) (by simp [headIsSpTab, isSpTab, hsp])
          | succ k => omega
      subst hn0
      exact ih 1 hrest (by omega) fun _ => hsphead hsp
    · rw [if_neg hsp]
      by_cases hnl : c = '\n'
      · rw [if_pos hnl]
        simp only [collapsedB, Bool.and_eq_true, decide_eq_true_eq]
        exact ⟨⟨by decide, fun h => absurd h (by decide)⟩,
          ih 0 hrest (by omega) fun h => absurd h (by omega)⟩
      · rw [if_neg hnl]
        have hcX : collapsedB (c :: trimTrailAux 0 rest) = true := by
          simp only [collapsedB, Bool.and_eq_true, decide_eq_true_eq]
          exact ⟨⟨htab, fun h => absurd h hsp⟩,
            ih 0 hrest (by omega) fun h => absurd h (by omega)⟩
        have hcsp : isSpTab c = false := by simp [isSpTab, hsp, htab]
        exact collapsedB_flush n c _ hcsp hcX hn

theorem sanitizeL_good :
    ∀ (l : List Char), ∀ c ∈ sanitizeL l, goodChar c = true := by
  intro l c hc
  unfold sanitizeL trimTrail collapseWS at hc
  rcases mem_trimTrailAux _ 0 hc with h | h | h
  · rcases mem_collapseAux _ false h with h2 | h2
    · unfold stripCtrl at h2
      rw [List.mem_filter] at h2
      obtain ⟨h3, hctrl⟩ := h2
      unfold stripBell at h3
      rw [List.mem_filter] at h3
      unfold stripCR at h3
      rw [List.mem_filter] at h3
      simp only [goodChar, Bool.and_eq_true]
      refine ⟨hctrl, ?_⟩
      simpa using h3.1.2
    · subst h2; decide
  · subst h; decide
  · subst h; decide

theorem sanitizeL_collapsed (l : List Char) : collapsedB (sanitizeL l) = true := by
  unfold sanitizeL trimTrail collapseWS
  exact collapsedB_trimTrailAux _ 0 (collapsedB_collapseAux _).1 (by omega)
    fun h => absurd h (by omega)

theorem sanitizeL_trimmed (l : List Char) : trimmedB (sanitizeL l) = true :=
  trimmedB_trimTrailAux _ 0

theorem goodChar_spec {c : Char} (h : goodChar c = true) :
    c ≠ '\x1b' ∧ c ≠ '\x08' ∧ c ≠ '\x7f' ∧ c ≠ '\r' ∧ c ≠ '\x07' ∧
      isStrippedCtrl c = false := by
  simp only [goodChar, Bool.and_eq_true, Bool.not_eq_true',
    decide_eq_true_eq] at h
  obtain ⟨hctrl, hcr⟩ := h
  refine ⟨?_, ?_, ?_, hcr, ?_, hctrl⟩
  · intro he; rw [he] at hctrl; exact absurd hctrl (by decide)
  · intro he; rw [he] at hctrl; exact absurd hctrl (by decide)
  · intro he; rw [he] at hctrl; exact absurd hctrl (by decide)
  · intro he; rw [he] at hctrl; exact absurd hctrl (by decide)

theorem sanitizeL_idem (l : List Char) : sanitizeL (sanitizeL l) = sanitizeL l := by
  have hgood := sanitizeL_good l
  have hcoll := sanitizeL_collapsed l
  have htrim := sanitizeL_trimmed l
  have hnoesc : ∀ c ∈ sanitizeL l, c ≠ '\x1b' :=
    fun c hc => (goodChar_spec (hgood c hc)).1
  show trimTrail (collapseWS (stripCtrl (stripBell (stripCR (normCRLF
    (stripBsDel (stripEscMode (stripOSC (stripCSI (sanitizeL l)))))))))) =
    sanitizeL l
  rw [stripCSI_no_esc hnoesc, stripOSC_no_esc hnoesc,
    stripEscMode_no_esc hnoesc]
  rw [show stripBsDel (sanitizeL l) = sanitizeL l from
    List.filter_eq_self.mpr fun c hc => by
      have h := goodChar_spec (hgood c hc)
      simp [h.2.1, h.2.2.1]]
  rw [normCRLF_no_cr fun c hc => (goodChar_spec (hgood c hc)).2.2.2.1]
  rw [show stripCR (sanitizeL l) = sanitizeL l from
    List.filter_eq_self.mpr fun c hc => by
      have h := goodChar_spec (hgood c hc)
      simp [h.2.2.2.1]]
  rw [show stripBell (sanitizeL l) = sanitizeL l from
    List.filter_eq_self.mpr fun c hc => by
      have h := goodChar_spec (hgood c hc)
      simp [h.2.2.2.2.1]]
  rw [show stripCtrl (sanitizeL l) = sanitizeL l from
    List.filter_eq_self.mpr fun c hc => by
      have h := goodChar_spec (hgood c hc)
      simp [h.2.2.2.2.2]]
  show trimTrail (collapseAux false (sanitizeL l)) = sanitizeL l
  rw [(collapseAux_id _ hcoll).1]
  exact (trimTrailAux_id _ htrim).1

/-- C2: the output sanitizer is idempotent — for every input string `x`,
`stripAnsiCodes (stripAnsiCodes x) = stripAnsiCodes x`, where
`stripAnsiCodes` is the fixed-precedence pipeline stripping ANSI
color/cursor sequences, OSC sequences, `ESC=`/`ESC>`, backspace/delete
bytes, carriage returns (after CRLF normalization), bell bytes and the
remaining control bytes, then collapsing space/tab runs to one space and
trimming trailing whitespace per line. -/
theorem C2_sanitizer_idempotent :
    ∀ x : String, stripAnsiCodes (stripAnsiCodes x) = stripAnsiCodes x := by
  intro x
  unfold stripAnsiCodes
  exact congrArg String.mk (sanitizeL_idem x.data)

/-- C9: every character surviving `stripAnsiCodes` is either a line feed or
a printable (code point at least 32 and not DEL); in particular no tab
survives — the control strip preserves tab but the space/tab collapse
replaces every tab run by a single space. -/
theorem C9_no_ctrl_survives :
    ∀ (x : String) (c : Char), c ∈ (stripAnsiCodes x).data →
      (c = '\n' ∨ (32 ≤ c.toNat ∧ c.toNat ≠ 127)) ∧ c ≠ '\t' := by
  intro x c hc
  have hc' : c ∈ sanitizeL x.data := hc
  have hg := goodChar_spec (sanitizeL_good x.data c hc')
  have htab : c ≠ '\t' :=
    fun h => collapsedB_no_tab _ (sanitizeL_collapsed x.data) (h ▸ hc')
  refine ⟨?_, htab⟩
  have hctrl := hg.2.2.2.2.2
  simp only [isStrippedCtrl, decide_eq_false_iff_not] at hctrl
  push_neg at hctrl
  have h9 : c.toNat ≠ 9 :=
    fun h => htab (char_eq_of_toNat_eq (by rw [h]; rfl))
  have h13 : c.toNat ≠ 13 :=
    fun h => hg.2.2.2.1 (char_eq_of_toNat_eq (by rw [h]; rfl))
  by_cases h10 : c.toNat = 10
  · exact Or.inl (char_eq_of_toNat_eq (by rw [h10]; rfl))
  · exact Or.inr (by omega)

/-- C9 witness: the character `a` survives sanitizing `"a\tb"` and is a
printable non-tab character. -/
theorem C9_no_ctrl_survives_witness :
    'a' ∈ (stripAnsiCodes "a\tb").data ∧
      (('a' = '\n' ∨ (32 ≤ 'a'.toNat ∧ 'a'.toNat ≠ 127)) ∧ 'a' ≠ '\t') :=
  ⟨by decide, C9_no_ctrl_survives "a\tb" 'a' (by decide)⟩

theorem updatePrompt_commandHistory (s : ClientState) :
    (updatePrompt s).1.commandHistory = s.commandHistory := by
  unfold updatePrompt
  split
  · rfl
  · split <;> rfl

theorem updatePrompt_historyIndex (s : ClientState) :
    (updatePrompt s).1.historyIndex = s.historyIndex := by
  unfold updatePrompt
  split
  · rfl
  · split <;> rfl

theorem updatePrompt_interactiveMode (s : ClientState) :
    (updatePrompt s).1.interactiveMode = s.interactiveMode := by
  unfold updatePrompt
  split
  · rfl
  · split <;> rfl

theorem updatePrompt_inputValue (s : ClientState) :
    (updatePrompt s).1.inputValue = s.inputValue := by
  unfold updatePrompt
  split
  · rfl
  · split <;> rfl

theorem updatePrompt_outputLines (s : ClientState) :
    (updatePrompt s).1.outputLines = s.outputLines := by
  unfold updatePrompt
  split
  · rfl
  · split <;> rfl

theorem updatePrompt_socketOpen (s : ClientState) :
    (updatePrompt s).1.socketOpen = s.socketOpen := by
  unfold updatePrompt
  split
  · rfl
  · split <;> rfl

theorem updatePromptForMode_commandHistory (s : ClientState) :
    (updatePromptForMode s).1.commandHistory = s.commandHistory := by
  unfold updatePromptForMode
  split
  · rfl
  · exact updatePrompt_commandHistory s

theorem updatePromptForMode_historyIndex (s : ClientState) :
    (updatePromptForMode s).1.historyIndex = s.historyIndex := by
  unfold updatePromptForMode
  split
  · rfl
  · exact updatePrompt_historyIndex s

theorem updatePromptForMode_interactiveMode (s : ClientState) :
    (updatePromptForMode s).1.interactiveMode = s.interactiveMode := by
  unfold updatePromptForMode
  split
  · rfl
  · exact updatePrompt_interactiveMode s

theorem updatePromptForMode_inputValue (s : ClientState) :
    (updatePromptForMode s).1.inputValue = s.inputValue := by
  unfold updatePromptForMode
  split
  · rfl
  · exact updatePrompt_inputValue s

theorem updatePromptForMode_socketOpen (s : ClientState) :
    (updatePromptForMode s).1.socketOpen = s.socketOpen := by
  unfold updatePromptForMode
  split
  · rfl
  · exact updatePrompt_socketOpen s

theorem handleMessage_preserves (s : ClientState) (m : ServerMsg) :
    (handleMessage s m).1.commandHistory = s.commandHistory ∧
    (handleMessage s m).1.historyIndex = s.historyIndex ∧
    (handleMessage s m).1.inputValue = s.inputValue ∧
    (handleMessage s m).1.socketOpen = s.socketOpen := by
  cases m with
  | promptMsg cwd msg =>
    simp only [handleMessage]
    split <;>
      simp [updatePrompt_commandHistory, updatePrompt_historyIndex,
        updatePrompt_inputValue, updatePrompt_socketOpen]
  | outputMsg inter cs cmd ot su sg cw =>
    cases inter with
    | none =>
      simp only [handleMessage]
      repeat' split
      all_goals
        simp [updatePrompt_commandHistory, updatePrompt_historyIndex,
          updatePrompt_inputValue, updatePrompt_socketOpen]
    | some b =>
      simp only [handleMessage]
      repeat' split
      all_goals
        simp [updatePrompt_commandHistory, updatePrompt_historyIndex,
          updatePrompt_inputValue, updatePrompt_socketOpen,
          updatePromptForMode_commandHistory, updatePromptForMode_historyIndex,
          updatePromptForMode_inputValue, updatePromptForMode_socketOpen]
  | shellOutputMsg ot =>
    simp only [handleMessage]
    split <;> simp
  | unknownMsg => exact ⟨rfl, rfl, rfl, rfl⟩

theorem handleMessage_mode (s : ClientState) (m : ServerMsg) :
    (handleMessage s m).1.interactiveMode =
      match m with
      | .outputMsg (some b) _ _ _ _ _ _ => b
      | _ => s.interactiveMode := by
  cases m with
  | promptMsg cwd msg =>
    simp only [handleMessage]
    split <;> simp [updatePrompt_interactiveMode]
  | outputMsg inter cs cmd ot su sg cw =>
    cases inter with
    | none =>
      simp only [handleMessage]
      repeat' split
      all_goals simp [updatePrompt_interactiveMode]
    | some b =>
      simp only [handleMessage]
      repeat' split
      all_goals
        simp [updatePrompt_interactiveMode, updatePromptForMode_interactiveMode]
  | shellOutputMsg ot =>
    simp only [handleMessage]
    split <;> simp
  | unknownMsg => rfl

theorem executeCommand_interactiveMode (s : ClientState) :
    (executeCommand s).1.interactiveMode = s.interactiveMode := by
  simp only [executeCommand]
  repeat' split
  all_goals rfl

theorem executeCommand_commandHistory (s : ClientState) :
    (executeCommand s).1.commandHistory =
      if jsTrim s.inputValue ≠ "" ∧ s.interactiveMode = false then
        s.commandHistory ++ [jsTrim s.inputValue]
      else s.commandHistory := by
  simp only [executeCommand]
  repeat' split
  all_goals simp_all

theorem executeCommand_historyIndex (s : ClientState) :
    (executeCommand s).1.historyIndex =
      if jsTrim s.inputValue ≠ "" ∧ s.interactiveMode = false then
        ((s.commandHistory.length : Int) + 1)
      else s.historyIndex := by
  simp only [executeCommand]
  repeat' split
  all_goals simp_all

theorem sendInputToShell_preserves (s : ClientState) :
    (sendInputToShell s).1.commandHistory = s.commandHistory ∧
    (sendInputToShell s).1.historyIndex = s.historyIndex ∧
    (sendInputToShell s).1.interactiveMode = s.interactiveMode := by
  simp only [sendInputToShell]
  repeat' split
  all_goals exact ⟨rfl, rfl, rfl⟩

theorem navigateHistory_preserves (s : ClientState) (d : Int) :
    (navigateHistory s d).commandHistory = s.commandHistory ∧
    (navigateHistory s d).interactiveMode = s.interactiveMode := by
  simp only [navigateHistory]
  repeat' split
  all_goals exact ⟨rfl, rfl⟩

theorem navigateHistory_invariant (s : ClientState) (d : Int)
    (h : invariantOK s) : invariantOK (navigateHistory s d) := by
  obtain ⟨h1, h2, h3⟩ := h
  simp only [invariantOK, navigateHistory]
  split
  · exact ⟨h1, h2, h3⟩
  · split
    · show -1 ≤ (0 : Int) ∧ (0 : Int) ≤ (s.commandHistory.length : Int) ∧
        (s.commandHistory ≠ [] → 0 ≤ (0 : Int))
      exact ⟨by omega, by omega, fun _ => by omega⟩
    · split
      · show -1 ≤ (s.commandHistory.length : Int) ∧
          (s.commandHistory.length : Int) ≤ (s.commandHistory.length : Int) ∧
          (s.commandHistory ≠ [] → 0 ≤ (s.commandHistory.length : Int))
        exact ⟨by omega, by omega, fun _ => by omega⟩
      · show -1 ≤ s.historyIndex + d ∧
          s.historyIndex + d ≤ (s.commandHistory.length : Int) ∧
          (s.commandHistory ≠ [] → 0 ≤ s.historyIndex + d)
        exact ⟨by omega, by omega, fun _ => by omega⟩

theorem invariantOK_congr {s t : ClientState}
    (hh : t.commandHistory = s.commandHistory)
    (hi : t.historyIndex = s.historyIndex) (h : invariantOK s) :
    invariantOK t := by
  unfold invariantOK at *
  rw [hh, hi]
  exact h

theorem executeCommand_invariant (s : ClientState) (h : invariantOK s) :
    invariantOK (executeCommand s).1 := by
  obtain ⟨h1, h2, h3⟩ := h
  unfold invariantOK
  rw [executeCommand_commandHistory, executeCommand_historyIndex]
  split
  · refine ⟨by omega, ?_, fun _ => by omega⟩
    simp only [List.length_append, List.length_cons, List.length_nil]
    push_cast
    omega
  · exact ⟨h1, h2, h3⟩

theorem clientStep_invariant (s : ClientState) (e : ClientEvent)
    (h : invariantOK s) : invariantOK (clientStep s e) := by
  cases e with
  | key k =>
    cases k with
    | enter =>
      simp only [clientStep, handleKeydown]
      split
      · exact invariantOK_congr (sendInputToShell_preserves s).1
          (sendInputToShell_preserves s).2.1 h
      · exact executeCommand_invariant s h
    | arrowUp =>
      simp only [clientStep, handleKeydown]
      split
      · exact navigateHistory_invariant s (-1) h
      · exact h
    | arrowDown =>
      simp only [clientStep, handleKeydown]
      split
      · exact navigateHistory_invariant s 1 h
      · exact h
    | tab => exact h
    | other => exact h
  | recv m =>
    exact invariantOK_congr (handleMessage_preserves s m).1
      (handleMessage_preserves s m).2.1 h
  | setInput v => exact h
  | winResize cols rows => exact h
  | sockOpened => exact h
  | sockClosed => exact h
  | sockError => exact h

theorem foldl_clientStep_invariant :
    ∀ (es : List ClientEvent) (s : ClientState), invariantOK s →
      invariantOK (es.foldl clientStep s) := by
  intro es
  induction es with
  | nil => intro s h; exact h
  | cons e rest ih => intro s h; exact ih _ (clientStep_invariant s e h)

theorem invariantOK_initial : invariantOK initialState := by
  unfold invariantOK
  exact ⟨by decide, by decide, fun h => absurd rfl h⟩

theorem runClient_invariant (es : List ClientEvent) :
    invariantOK (runClient es) :=
  foldl_clientStep_invariant es initialState invariantOK_initial

/-- C4 counterexample: the claim "in every reachable client state the
history cursor is within `[0, history.length]`" is false — the initial
state is reachable (empty event list) and its cursor is `-1`. -/
theorem C4_counterexample :
    ¬ ∀ s : ClientState, ReachableClient s → 0 ≤ s.historyIndex := by
  intro h
  have h2 : (0 : Int) ≤ -1 := h initialState ⟨[], rfl⟩
  omega

/-- C4 as amended: in every reachable client state the history cursor is
within `[-1, history.length]`, and it is nonnegative whenever the history
is nonempty (the cursor is `-1` only while the history is empty, which is
its constructor value); moreover, with a nonempty history, a navigation
request below 0 clamps the cursor to 0, and a request at or above
`history.length` clears the input and sets the cursor to
`history.length`.  (With an empty history, `navigateHistory` is a no-op
and the cursor stays at `-1`.) -/
theorem C4_amended_cursor_bounds :
    (∀ s : ClientState, ReachableClient s →
      -1 ≤ s.historyIndex ∧ s.historyIndex ≤ s.commandHistory.length ∧
        (s.commandHistory ≠ [] → 0 ≤ s.historyIndex)) ∧
    (∀ (s : ClientState) (d : Int), s.commandHistory ≠ [] →
      s.historyIndex + d < 0 → (navigateHistory s d).historyIndex = 0) ∧
    (∀ (s : ClientState) (d : Int), s.commandHistory ≠ [] →
      (s.commandHistory.length : Int) ≤ s.historyIndex + d →
      (navigateHistory s d).historyIndex = s.commandHistory.length ∧
        (navigateHistory s d).inputValue = "") := by
  refine ⟨?_, ?_, ?_⟩
  · rintro s ⟨es, rfl⟩
    exact runClient_invariant es
  · intro s d hne hlt
    have hlen : ¬s.commandHistory.length = 0 :=
      fun h => hne (List.length_eq_zero.mp h)
    simp only [navigateHistory]
    rw [if_neg hlen, if_pos hlt]
  · intro s d hne hge
    have hlen : ¬s.commandHistory.length = 0 :=
      fun h => hne (List.length_eq_zero.mp h)
    have hpos : (0 : Int) ≤ s.commandHistory.length := by omega
    simp only [navigateHistory]
    rw [if_neg hlen, if_neg (by omega), if_pos hge]
    exact ⟨rfl, rfl⟩

/-- C4 witness: the invariant instantiated at the (reachable) initial
state. -/
theorem C4_amended_cursor_bounds_witness :
    -1 ≤ initialState.historyIndex ∧
      initialState.historyIndex ≤ initialState.commandHistory.length ∧
      (initialState.commandHistory ≠ [] → 0 ≤ initialState.historyIndex) :=
  C4_amended_cursor_bounds.1 initialState ⟨[], rfl⟩

/-- C3 counterexample: with history `["ls", "pwd", "cd /tmp"]` and the
cursor at 3, pressing Up three times and Down once does not yield cursor 2
with input `"cd /tmp"` (it yields cursor 1 with input `"pwd"`: three Ups
reach index 0, and one Down moves to index 1). -/
theorem C3_counterexample :
    ¬ ((runClient historyScenario).historyIndex = 2 ∧
       (runClient historyScenario).inputValue = "cd /tmp") := by decide

/-- C3 as amended: after executing `ls`, `pwd`, `cd /tmp`, pressing Up
three times and Down once yields cursor 1 with input `"pwd"`; the next
Down yields cursor 2 with input `"cd /tmp"`, and one further Down clears
the input and sets the cursor to 3. -/
theorem C3_amended_navigation :
    (runClient historyScenario).historyIndex = 1 ∧
    (runClient historyScenario).inputValue = "pwd" ∧
    (runClient (historyScenario ++ [.key .arrowDown])).historyIndex = 2 ∧
    (runClient (historyScenario ++ [.key .arrowDown])).inputValue = "cd /tmp" ∧
    (runClient (historyScenario ++
      [.key .arrowDown, .key .arrowDown])).historyIndex = 3 ∧
    (runClient (historyScenario ++
      [.key .arrowDown, .key .arrowDown])).inputValue = "" := by decide

/-- C5: the session mode changes only when an `output` message carries an
explicit `interactive` flag (the mode becomes the flag's value; every other
event leaves the mode unchanged), and while the mode is Interactive an
Enter keypress sends an `input` message carrying the raw line plus a
newline (when the socket is open) and never a `command` message. -/
theorem C5_mode_transitions :
    (∀ (s : ClientState) (e : ClientEvent),
      (clientStep s e).interactiveMode =
        match e with
        | .recv (.outputMsg (some b) _ _ _ _ _ _) => b
        | _ => s.interactiveMode) ∧
    (∀ s : ClientState, s.interactiveMode = true →
      (handleKeydown s .enter).2 =
        (if s.socketOpen then [ClientMsg.inputMsg (s.inputValue ++ "\n")]
         else []) ∧
      ∀ c, ClientMsg.commandMsg c ∉ (handleKeydown s .enter).2) := by
  constructor
  · intro s e
    cases e with
    | key k =>
      cases k with
      | enter =>
        simp only [clientStep, handleKeydown]
        split
        · exact (sendInputToShell_preserves s).2.2
        · exact executeCommand_interactiveMode s
      | arrowUp =>
        simp only [clientStep, handleKeydown]
        split
        · exact (navigateHistory_preserves s (-1)).2
        · rfl
      | arrowDown =>
        simp only [clientStep, handleKeydown]
        split
        · exact (navigateHistory_preserves s 1).2
        · rfl
      | tab => rfl
      | other => rfl
    | recv m =>
      show (handleMessage s m).1.interactiveMode = _
      rw [handleMessage_mode]
      cases m with
      | promptMsg cwd msg => rfl
      | outputMsg inter cs cmd ot su sg cw => cases inter <;> rfl
      | shellOutputMsg ot => rfl
      | unknownMsg => rfl
    | setInput v => rfl
    | winResize cols rows => rfl
    | sockOpened => rfl
    | sockClosed => rfl
    | sockError => rfl
  · intro s hmode
    have hkey : handleKeydown s .enter = sendInputToShell s := by
      simp [handleKeydown, hmode]
    constructor
    · rw [hkey]
      rfl
    · intro c hc
      rw [hkey] at hc
      show False
      have : (sendInputToShell s).2 =
          if s.socketOpen then [ClientMsg.inputMsg (s.inputValue ++ "\n")]
          else [] := rfl
      rw [this] at hc
      by_cases hso : s.socketOpen
      · rw [if_pos hso] at hc
        rcases List.mem_singleton.mp hc with h
        exact ClientMsg.noConfusion h
      · rw [if_neg hso] at hc
        exact absurd hc (List.not_mem_nil _)

/-- C5 witness: in an Interactive state with an open socket and input
`"ls"`, Enter produces exactly one `input` message `"ls\n"`. -/
theorem C5_mode_transitions_witness :
    (handleKeydown
      { commandHistory := []
        historyIndex := -1
        currentDirectory := ""
        interactiveMode := true
        inputValue := "ls"
        outputLines := []
        promptText := ">"
        socketOpen := true } .enter).2 = [ClientMsg.inputMsg "ls\n"] :=
  ((C5_mode_transitions.2 _ rfl).1).trans (by decide)

/-- C6: a command is appended to the history only on Enter in Normal mode
with a non-blank (after trimming) input — in which case the trimmed input
is appended — and while the mode is Interactive the history and the
history cursor never change (no append, no navigation). -/
theorem C6_history_append_rules :
    (∀ (s : ClientState) (e : ClientEvent),
      (clientStep s e).commandHistory =
        match e with
        | .key .enter =>
          if jsTrim s.inputValue ≠ "" ∧ s.interactiveMode = false then
            s.commandHistory ++ [jsTrim s.inputValue]
          else s.commandHistory
        | _ => s.commandHistory) ∧
    (∀ (s : ClientState) (e : ClientEvent), s.interactiveMode = true →
      (clientStep s e).commandHistory = s.commandHistory ∧
      (clientStep s e).historyIndex = s.historyIndex) := by
  constructor
  · intro s e
    cases e with
    | key k =>
      cases k with
      | enter =>
        show (handleKeydown s .enter).1.commandHistory = _
        simp only [handleKeydown]
        split
        · next hmode =>
          rw [(sendInputToShell_preserves s).1, if_neg (by simp [hmode])]
        · exact executeCommand_commandHistory s
      | arrowUp =>
        show (handleKeydown s .arrowUp).1.commandHistory = _
        simp only [handleKeydown]
        split
        · exact (navigateHistory_preserves s (-1)).1
        · rfl
      | arrowDown =>
        show (handleKeydown s .arrowDown).1.commandHistory = _
        simp only [handleKeydown]
        split
        · exact (navigateHistory_preserves s 1).1
        · rfl
      | tab => rfl
      | other => rfl
    | recv m => exact (handleMessage_preserves s m).1
    | setInput v => rfl
    | winResize cols rows => rfl
    | sockOpened => rfl
    | sockClosed => rfl
    | sockError => rfl
  · intro s e hmode
    cases e with
    | key k =>
      cases k with
      | enter =>
        have hkey : handleKeydown s .enter = sendInputToShell s := by
          simp [handleKeydown, hmode]
        show (handleKeydown s .enter).1.commandHistory = _ ∧
          (handleKeydown s .enter).1.historyIndex = _
        rw [hkey]
        exact ⟨(sendInputToShell_preserves s).1,
          (sendInputToShell_preserves s).2.1⟩
      | arrowUp =>
        have hkey : handleKeydown s .arrowUp = (s, []) := by
          simp [handleKeydown, hmode]
        show (handleKeydown s .arrowUp).1.commandHistory = _ ∧
          (handleKeydown s .arrowUp).1.historyIndex = _
        rw [hkey]
        exact ⟨rfl, rfl⟩
      | arrowDown =>
        have hkey : handleKeydown s .arrowDown = (s, []) := by
          simp [handleKeydown, hmode]
        show (handleKeydown s .arrowDown).1.commandHistory = _ ∧
          (handleKeydown s .arrowDown).1.historyIndex = _
        rw [hkey]
        exact ⟨rfl, rfl⟩
      | tab => exact ⟨rfl, rfl⟩
      | other => exact ⟨rfl, rfl⟩
    | recv m =>
      exact ⟨(handleMessage_preserves s m).1, (handleMessage_preserves s m).2.1⟩
    | setInput v => exact ⟨rfl, rfl⟩
    | winResize cols rows => exact ⟨rfl, rfl⟩
    | sockOpened => exact ⟨rfl, rfl⟩
    | sockClosed => exact ⟨rfl, rfl⟩
    | sockError => exact ⟨rfl, rfl⟩

/-- C6 witness: in an Interactive state, an Up arrow leaves the history
and the cursor unchanged. -/
theorem C6_history_append_rules_witness :
    (clientStep
      { commandHistory := ["ls"]
        historyIndex := 1
        currentDirectory := ""
        interactiveMode := true
        inputValue := "x"
        outputLines := []
        promptText := ">"
        socketOpen := true } (.key .arrowUp)).commandHistory = ["ls"] ∧
    (clientStep
      { commandHistory := ["ls"]
        historyIndex := 1
        currentDirectory := ""
        interactiveMode := true
        inputValue := "x"
        outputLines := []
        promptText := ">"
        socketOpen := true } (.key .arrowUp)).historyIndex = 1 :=
  C6_history_append_rules.2 _ (.key .arrowUp) rfl

/-- C7: on an `output` message with `clear_screen: true` (and no
`interactive` flag), the output buffer is emptied; the triggering command
line is re-displayed after the clear exactly when the command is not
`"clear"`. -/
theorem C7_clear_screen :
    ∀ (s : ClientState) (command outputText cwd : String)
      (success suggest : Bool),
      (command = "clear" →
        (handleMessage s (.outputMsg none true command outputText success
          suggest cwd)).1.outputLines = []) ∧
      (command ≠ "clear" →
        (handleMessage s (.outputMsg none true command outputText success
          suggest cwd)).1.outputLines =
          [(s.promptText ++ " " ++ command, "command-line")]) := by
  intro s command outputText cwd success suggest
  constructor
  · intro hcmd
    subst hcmd
    simp only [handleMessage]
    repeat' split
    all_goals simp_all [updatePrompt_outputLines, getPromptText]
  · intro hcmd
    simp only [handleMessage]
    repeat' split
    all_goals simp_all [updatePrompt_outputLines, getPromptText]

/-- C7 witness: receiving `{type: "output", clear_screen: true,
command: "clear"}` in a state with pending output empties the buffer. -/
theorem C7_clear_screen_witness :
    (handleMessage
      { commandHistory := []
        historyIndex := -1
        currentDirectory := ""
        interactiveMode := false
        inputValue := ""
        outputLines := [("old", "output-text")]
        promptText := "~$"
        socketOpen := true }
      (.outputMsg none true "clear" "" true false "")).1.outputLines = [] :=
  (C7_clear_screen _ "clear" "" "" true false).1 rfl

/-- C1 counterexample: the sanitized and trimmed line
`"user@host:~/project$ "` is classified as a shell prompt, but it is
rendered unchanged — not as `"~/project$"` — because `formatPrompt` only
extracts the directory for lines containing the hard-coded substring
`web-h-063@web-h-063`. -/
theorem C1_counterexample :
    isPromptLine (jsTrimL (sanitizeL ("user@host:~/project$ ".data))) = true ∧
    String.mk (formatPrompt (jsTrimL (sanitizeL
      ("user@host:~/project$ ".data)))) = "user@host:~/project$" ∧
    ¬ String.mk (formatPrompt (jsTrimL (sanitizeL
      ("user@host:~/project$ ".data)))) = "~/project$" := by decide

/-- C1 as amended: the line `"user@host:~/project$ "` (sanitized and
trimmed) is classified as a shell prompt and rendered unchanged as
`"user@host:~/project$"`; the extraction of the portion between a `:` and
the trailing `$`/`#` (with symbol `#` when the line contains `#`, else
`$`) happens only for lines containing the hard-coded substring
`web-h-063@web-h-063`, for which it behaves as the claim describes. -/
theorem C1_amended_prompt_render :
    isPromptLine (jsTrimL (sanitizeL ("user@host:~/project$ ".data))) = true ∧
    addRawOutputLines "user@host:~/project$ " =
      [("user@host:~/project$", "shell-prompt")] ∧
    String.mk (formatPrompt ("web-h-063@web-h-063:~/project$".data)) =
      "~/project$" ∧
    String.mk (formatPrompt ("web-h-063@web-h-063:/root#".data)) =
      "/root#" := by decide

/-- C8 counterexample: for the chunk `"a\n"` — which ends in a line
terminator — the blank last fragment produced by the split is dropped, not
forwarded as a spacer: the only rendered line is `"a"` and no empty
`raw-output` spacer is emitted. -/
theorem C8_counterexample :
    addRawOutputLines "a\n" = [("a", "raw-output")] ∧
    ("", "raw-output") ∉ addRawOutputLines "a\n" := by decide

/-- C8 as amended: a line that is blank after trimming is forwarded as a
minimal-height spacer when it is not the last fragment of the chunk, and
is dropped when it is the last fragment — regardless of whether the chunk
ends in a line terminator. -/
theorem C8_amended_blank_lines :
    ∀ (text : String) (i : Nat) (line : List Char),
      (splitNl (sanitizeL text.data)).get? i = some line →
      (jsTrimL line).isEmpty = true →
      (i + 1 < (splitNl (sanitizeL text.data)).length →
        lineContrib (endsWithNl text.data)
          (splitNl (sanitizeL text.data)).length i line =
          [("", "raw-output")]) ∧
      (i + 1 = (splitNl (sanitizeL text.data)).length →
        lineContrib (endsWithNl text.data)
          (splitNl (sanitizeL text.data)).length i line = []) := by
  intro text i line hget hblank
  have hempty : jsTrimL line = [] := by
    cases hjt : jsTrimL line with
    | nil => rfl
    | cons c rest => rw [hjt] at hblank; simp [List.isEmpty] at hblank
  constructor
  · intro hlt
    have hne : (i == (splitNl (sanitizeL text.data)).length - 1) = false := by
      simp only [beq_eq_false_iff_ne, ne_eq]
      omega
    simp only [lineContrib, hblank, hne, Bool.not_false, Bool.and_true,
      if_true]
  · intro heq
    have hlast : (i == (splitNl (sanitizeL text.data)).length - 1) = true := by
      simp only [beq_iff_eq]
      omega
    have hprompt : isPromptLine [] = false := by decide
    have hpw : isPasswordPrompt [] = false := by decide
    simp only [lineContrib, hlast, Bool.not_true, Bool.and_false,
      Bool.false_eq_true, if_false]
    simp only [processTerminalLineOut, hempty, hprompt, hpw]
    cases hnl : endsWithNl text.data <;> simp

/-- C8 witness: for the chunk `"a\n"`, the second split fragment is blank
and last (index 1 of 2), and its contribution is empty. -/
theorem C8_amended_blank_lines_witness :
    (splitNl (sanitizeL ("a\n" : String).data)).get? 1 = some [] ∧
    (jsTrimL ([] : List Char)).isEmpty = true ∧
    lineContrib (endsWithNl ("a\n" : String).data)
      (splitNl (sanitizeL ("a\n" : String).data)).length 1 [] = [] :=
  ⟨by decide, by decide,
    (C8_amended_blank_lines "a\n" 1 [] (by decide) (by decide)).2 (by decide)⟩

/-- C10: `getShortPath` returns `"~"` for an empty path without touching
the `process` global (the result is `ok "~"` under any environment), and
for every non-empty path in the browser environment (no `process` global)
it throws a `ReferenceError` when evaluating `process.env.USER`. -/
theorem C10_getShortPath_faults :
    (∀ env : Option (Option String), getShortPath env "" = .ok "~") ∧
    (∀ path : String, path ≠ "" →
      getShortPath none path =
        .error "ReferenceError: process is not defined") := by
  constructor
  · intro env
    rfl
  · intro path h
    unfold getShortPath
    rw [if_neg h]

/-- C10 witness: the empty path yields `"~"`, and the non-empty path
`"/tmp"` faults. -/
theorem C10_getShortPath_faults_witness :
    getShortPath none "" = Except.ok "~" ∧ ("/tmp" : String) ≠ "" ∧
      getShortPath none "/tmp" =
        Except.error "ReferenceError: process is not defined" :=
  ⟨C10_getShortPath_faults.1 none, by decide,
    C10_getShortPath_faults.2 "/tmp" (by decide)⟩
